import Mathlib

/-
Verification of the localization-sync script `para2github.py`
(`VM-Chinese-translate-group/Tales-of-Glarthford-Chinese`).

Python ordered dictionaries are embedded as association lists
`List (String × α)` in insertion order; dictionary assignment is
`dictInsert` (overwrite in place, else append), lookup is `pyGet`.
Substring tests (`in`), `str.startswith` and `str.split(".")` are
embedded as executable functions over the character lists of strings.
-/

/-- `hasPre p l` is true when `p` is a prefix of `l` (character lists). -/
def hasPre : List Char → List Char → Bool
  | [], _ => true
  | _ :: _, [] => false
  | p :: ps, c :: cs => p == c && hasPre ps cs

/-- `hasSub p l` is true when `p` occurs contiguously inside `l`.
Embeds Python's `p in l` substring test. -/
def hasSub (p : List Char) : List Char → Bool
  | [] => hasPre p []
  | c :: cs => hasPre p (c :: cs) || hasSub p cs

/-- Python `pat in s` (substring containment). -/
def strContains (s pat : String) : Bool := hasSub pat.data s.data

/-- Python `s.startswith(pre)`. -/
def startsWithP (s pre : String) : Bool := hasPre pre.data s.data

/-- Python dict lookup `d.get(k)` on an insertion-ordered dict. -/
def pyGet {α : Type} (d : List (String × α)) (k : String) : Option α :=
  (d.find? (fun p => p.1 == k)).map (·.2)

/-- Python dict assignment `d[k] = v`: overwrite in place when the key is
present, otherwise append at the end (insertion order preserved). -/
def dictInsert {α : Type} (d : List (String × α)) (k : String) (v : α) :
    List (String × α) :=
  if d.any (fun p => p.1 == k) then
    d.map (fun p => if p.1 == k then (k, v) else p)
  else d ++ [(k, v)]

/-- Python `pt_key in source_json` (membership in the source dict). -/
def sourceHasKey (source : List (String × String)) (k : String) : Bool :=
  source.any (fun p => p.1 == k)

/-- `save_translation` step 2: the direct, full-key matches, collected into
`corrected_zh_cn_dict` in the order the Paratranz dict is iterated. -/
def directMatches (zh source : List (String × String)) :
    List (String × String) :=
  zh.foldl
    (fun acc p => if sourceHasKey source p.1 then dictInsert acc p.1 p.2 else acc)
    []

/-- `save_translation` step 3: the Paratranz keys with no direct match,
in iteration order (`unmatched_paratranz_keys`). -/
def unmatched_paratranz_keys (zh source : List (String × String)) :
    List String :=
  (zh.filter (fun p => !sourceHasKey source p.1)).map (·.1)

/-- `save_translation` step 4, one unmatched key: when the key length is the
truncation sentinel 255, bind its value to the first source key having it as
a prefix; otherwise (or when no source key matches) leave the corrected dict
unchanged — the entry is dropped with a logged warning. -/
def truncStep (zh source : List (String × String))
    (acc : List (String × String)) (k : String) : List (String × String) :=
  if k.length == 255 then
    match source.find? (fun q => startsWithP q.1 k) with
    | some q => dictInsert acc q.1 ((pyGet zh k).getD "")
    | none => acc
  else acc

/-- `corrected_zh_cn_dict` after steps 2–4 of `save_translation`. -/
def corrected_zh_cn_dict (zh source : List (String × String)) :
    List (String × String) :=
  (unmatched_paratranz_keys zh source).foldl (truncStep zh source)
    (directMatches zh source)

/-- `save_translation` step 5: iterate the source document in its stored
order; use the corrected translation when present, else keep the source's
own original text (`final_json_object`). -/
def final_json_object (zh source : List (String × String)) :
    List (String × String) :=
  source.map (fun p => (p.1, (pyGet (corrected_zh_cn_dict zh source) p.1).getD p.2))

/-- `save_translation` fallback branch when the source document is missing:
emit the Paratranz dict with its keys sorted lexicographically. -/
def sortedFallback (zh : List (String × String)) : List (String × String) :=
  (List.insertionSort (· ≤ ·) (zh.map (·.1))).map
    (fun k => (k, (pyGet zh k).getD ""))

/-- The reconciliation core of `save_translation`: `some source` is the
branch where the local `en_us.json` exists, `none` the IOError branch. -/
def save_translation (zh : List (String × String)) :
    Option (List (String × String)) → List (String × String)
  | some source => final_json_object zh source
  | none => sortedFallback zh

/-- One translation entry as returned by the Paratranz API: `key` and
`stage` are always present, `original` and `translation` are read with
`item.get(..., "")` so they may be absent. -/
structure TranslationItem where
  key : String
  original : Option String
  translation : Option String
  stage : Int

/-- The value-selection policy of `translate`:
`original if item["stage"] in [0, -1, 2] or not translation else translation`
where `translation` and `original` default to the empty string. -/
def itemValue (item : TranslationItem) : String :=
  let translation := item.translation.getD ""
  let original := item.original.getD ""
  if item.stage = 0 ∨ item.stage = -1 ∨ item.stage = 2 ∨ translation = ""
  then original else translation

/-- `translate`: the parallel key and value lists built from the entries
(the source name `translate` is taken by the ambient library). -/
def translate_entries (items : List TranslationItem) : List String × List String :=
  (items.map (·.key), items.map itemValue)

-- Keys of the reconciled document coincide (as an ordered list) with the
-- keys of the source document.
theorem final_json_object_keys (zh source : List (String × String)) :
    (final_json_object zh source).map Prod.fst = source.map Prod.fst := by
  unfold final_json_object
  rw [List.map_map]
  rfl

/-- Claim C1: whenever the source key index exists, the reconciled document
produced by `save_translation` has exactly the key set of the source: every
source key is present and no key outside the source appears, regardless of
which keys the Paratranz entry set contains. -/
theorem save_translation_key_coverage (zh source : List (String × String))
    (k : String) :
    k ∈ (save_translation zh (some source)).map Prod.fst ↔
      k ∈ source.map Prod.fst := by
  show k ∈ (final_json_object zh source).map Prod.fst ↔ _
  rw [final_json_object_keys]

theorem sortedFallback_keys (zh : List (String × String)) :
    (sortedFallback zh).map Prod.fst =
      List.insertionSort (· ≤ ·) (zh.map (·.1)) := by
  unfold sortedFallback
  rw [List.map_map]
  exact List.map_id _

/-- Claim C4: the iteration order of the reconciled document equals the
iteration order of the source index when one exists; when the source
document is missing, the emitted keys are in lexicographic order (a sorted
permutation of the Paratranz keys). -/
theorem save_translation_order (zh source : List (String × String)) :
    (save_translation zh (some source)).map Prod.fst = source.map Prod.fst
    ∧ List.Sorted (· ≤ ·) ((save_translation zh none).map Prod.fst)
    ∧ List.Perm ((save_translation zh none).map Prod.fst)
        (zh.map Prod.fst) := by
  refine ⟨final_json_object_keys zh source, ?_, ?_⟩
  · show List.Sorted (· ≤ ·) ((sortedFallback zh).map Prod.fst)
    rw [sortedFallback_keys]
    exact List.sorted_insertionSort _ _
  · show List.Perm ((sortedFallback zh).map Prod.fst) _
    rw [sortedFallback_keys]
    exact List.perm_insertionSort _ _

/-- Claim C2: the resolved value of an entry is its (defaulted) original
text when the stage is 0, -1 or 2 or the translation is absent or empty,
and is the entry's translation in every other case. -/
theorem itemValue_stage_policy (item : TranslationItem) :
    ((item.stage = 0 ∨ item.stage = -1 ∨ item.stage = 2 ∨
        item.translation = none ∨ item.translation = some "") →
      itemValue item = item.original.getD "")
    ∧ ((item.stage ≠ 0 ∧ item.stage ≠ -1 ∧ item.stage ≠ 2 ∧
        item.translation ≠ none ∧ item.translation ≠ some "") →
      ∃ t, item.translation = some t ∧ itemValue item = t) := by
  constructor
  · intro h
    unfold itemValue
    rcases h with h | h | h | h | h
    · simp [h]
    · simp [h]
    · simp [h]
    · simp [h]
    · simp [h]
  · rintro ⟨h0, h1, h2, hn, he⟩
    cases ht : item.translation with
    | none => exact absurd ht hn
    | some t =>
      have htne : ¬t = "" := by
        intro hts
        exact he (by rw [ht, hts])
      refine ⟨t, rfl, ?_⟩
      unfold itemValue
      simp [ht, h0, h1, h2, htne]

/-- Witness for claim C2 at a concrete translated entry (stage 1,
non-empty translation): the translation is used. -/
theorem itemValue_stage_policy_witness :
    ∃ t, (TranslationItem.mk "a" (some "A") (some "甲") 1).translation = some t
      ∧ itemValue (TranslationItem.mk "a" (some "A") (some "甲") 1) = t :=
  (itemValue_stage_policy (TranslationItem.mk "a" (some "A") (some "甲") 1)).2
    (by refine ⟨?_, ?_, ?_, ?_, ?_⟩ <;> decide)

-- `find?` returns the first element satisfying the predicate: the list
-- splits as `pre ++ a :: post` with nothing in `pre` satisfying it.
theorem find?_first {α : Type} (p : α → Bool) :
    ∀ (l : List α) (a : α), l.find? p = some a →
      ∃ pre post, l = pre ++ a :: post ∧ p a = true ∧
        ∀ x ∈ pre, p x = false
  | [], a => by intro h; simp [List.find?] at h
  | b :: t, a => by
    intro h
    by_cases hb : p b
    · rw [List.find?_cons_of_pos _ hb] at h
      cases h
      exact ⟨[], t, rfl, hb, by intro x hx; cases hx⟩
    · rw [List.find?_cons_of_neg _ hb] at h
      obtain ⟨pre, post, hl, hpa, hpre⟩ := find?_first p t a h
      refine ⟨b :: pre, post, by rw [hl]; rfl, hpa, ?_⟩
      intro x hx
      rcases List.mem_cons.mp hx with hx | hx
      · rw [hx]; exact Bool.of_not_eq_true hb
      · exact hpre x hx

/-- Claim C3: for an entry key with no direct match in the source index,
the truncation-repair step of `save_translation` binds its value to the
first source key having it as a prefix exactly when the key length is 255;
when no source key has it as a prefix, or the length differs from 255, the
corrected dictionary is left unchanged (the entry is dropped, never
fuzzy-matched). -/
theorem truncStep_spec (zh source acc : List (String × String)) (k : String)
    (hunmatched : sourceHasKey source k = false) :
    (k.length = 255 →
      (∃ pre q post, source = pre ++ q :: post ∧ startsWithP q.1 k = true ∧
          (∀ q' ∈ pre, startsWithP q'.1 k = false) ∧
          truncStep zh source acc k = dictInsert acc q.1 ((pyGet zh k).getD ""))
      ∨ ((∀ q ∈ source, startsWithP q.1 k = false) ∧
          truncStep zh source acc k = acc))
    ∧ (k.length ≠ 255 → truncStep zh source acc k = acc) := by
  constructor
  · intro hlen
    unfold truncStep
    have hb : (k.length == 255) = true := by simp [hlen]
    rw [hb]
    cases hf : source.find? (fun q => startsWithP q.1 k) with
    | none =>
      right
      refine ⟨?_, by simp⟩
      intro q hq
      have := List.find?_eq_none.mp hf q hq
      exact Bool.of_not_eq_true this
    | some q =>
      left
      obtain ⟨pre, post, hl, hpa, hpre⟩ :=
        find?_first (fun q => startsWithP q.1 k) source q hf
      exact ⟨pre, q, post, hl, hpa, hpre, by simp⟩
  · intro hlen
    unfold truncStep
    have hb : (k.length == 255) = false := by simp [hlen]
    rw [hb]
    simp

/-- Witness for claim C3: the key `"zz"` is absent from the source and has
length 2 ≠ 255, so the truncation step drops it without binding. -/
theorem truncStep_spec_witness :
    truncStep [] [("alpha", "A")] [] "zz" = [] :=
  (truncStep_spec [] [("alpha", "A")] [] "zz" (by decide)).2 (by decide)

/-- Python `key.split(".")` on the character list of a key: splits at every
dot, keeping empty segments, and yields one segment for a dotless input. -/
def splitDot : List Char → List (List Char)
  | [] => [[]]
  | c :: cs =>
    match splitDot cs with
    | [] => [[c]]
    | h :: t => if c = '.' then [] :: h :: t else (c :: h) :: t

/-- A value of the aggregated quest document: either an untouched scalar
string or a synthesized ordered array of description lines. -/
inductive QVal where
  | s : String → QVal
  | arr : List String → QVal
deriving DecidableEq

/-- One iteration of the `normal_json2_ftb_desc` loop for key `key`:
when the key contains `"desc"`, take the second dot-separated segment as
the quest identifier (Python `key.split(".")[1]`, an IndexError — modelled
as `none` — when fewer than two segments exist), collect in document order
every value whose key contains `"<id>.quest_desc"`, and store the array
under the synthesized key `quest.<id>.quest_desc`. -/
def stepTemp (doc : List (String × String))
    (temp : List (String × List String)) (key : String) :
    Option (List (String × List String)) :=
  if strContains key "desc" then
    match splitDot key.data with
    | _ :: seg :: _ =>
      let keyId : String := ⟨seg⟩
      let arr :=
        (doc.filter (fun p => strContains p.1 (keyId ++ ".quest_desc"))).map (·.2)
      some (dictInsert temp ("quest." ++ keyId ++ ".quest_desc") arr)
    | _ => none
  else some temp

/-- The loop of `normal_json2_ftb_desc` over the (unmutated) document. -/
def buildTempGo (doc : List (String × String)) :
    List (String × String) → List (String × List String) →
      Option (List (String × List String))
  | [], temp => some temp
  | p :: rest, temp =>
    match stepTemp doc temp p.1 with
    | none => none
    | some temp2 => buildTempGo doc rest temp2

/-- `temp_en_json` after the full loop of `normal_json2_ftb_desc`. -/
def buildTemp (doc : List (String × String)) :
    Option (List (String × List String)) :=
  buildTempGo doc doc []

/-- `normal_json2_ftb_desc`: every key containing `"desc"` is removed from
the document (`temp_set` pops) and the synthesized array entries are merged
in afterwards with Python `dict.update` semantics. `none` models the
IndexError raised by `key.split(".")[1]` on a dotless key. -/
def normal_json2_ftb_desc (doc : List (String × String)) :
    Option (List (String × QVal)) :=
  match buildTemp doc with
  | none => none
  | some temp =>
    let kept :=
      (doc.filter (fun p => !strContains p.1 "desc")).map
        (fun p => (p.1, QVal.s p.2))
    some (temp.foldl (fun acc p => dictInsert acc p.1 (QVal.arr p.2)) kept)

theorem splitDot_ne_nil : ∀ l : List Char, splitDot l ≠ []
  | [] => by simp [splitDot]
  | c :: cs => by
    unfold splitDot
    cases h : splitDot cs with
    | nil => simp
    | cons hd tl => by_cases hc : c = '.' <;> simp [hc]

-- A key containing a dot splits into at least two segments.
theorem splitDot_two : ∀ l : List Char, '.' ∈ l →
    ∃ a b t, splitDot l = a :: b :: t
  | [], h => absurd h (List.not_mem_nil _)
  | c :: cs, h => by
    by_cases hc : c = '.'
    · unfold splitDot
      cases hs : splitDot cs with
      | nil => exact absurd hs (splitDot_ne_nil cs)
      | cons hd tl => exact ⟨[], hd, tl, by simp [hc]⟩
    · have hcs : '.' ∈ cs := by
        rcases List.mem_cons.mp h with h1 | h1
        · exact absurd h1.symm hc
        · exact h1
      obtain ⟨a, b, t, hab⟩ := splitDot_two cs hcs
      refine ⟨c :: a, b, t, ?_⟩
      unfold splitDot
      rw [hab]
      simp [hc]

-- When every `"desc"` key in scope has a dot, the aggregation loop
-- never hits the IndexError branch.
theorem buildTempGo_isSome (doc : List (String × String)) :
    ∀ (l : List (String × String)) (temp : List (String × List String)),
      (∀ p ∈ l, strContains p.1 "desc" = true → '.' ∈ p.1.data) →
      (buildTempGo doc l temp).isSome = true
  | [], temp => by intro h; simp [buildTempGo]
  | p :: rest, temp => by
    intro h
    unfold buildTempGo
    have hstep : ∀ t2, stepTemp doc temp p.1 = some t2 →
        (match stepTemp doc temp p.1 with
          | none => (none : Option (List (String × List String)))
          | some temp2 => buildTempGo doc rest temp2).isSome = true := by
      intro t2 ht2
      rw [ht2]
      exact buildTempGo_isSome doc rest t2
        (fun q hq => h q (List.mem_cons_of_mem p hq))
    unfold stepTemp
    by_cases hd : strContains p.1 "desc" = true
    · obtain ⟨a, b, t, hab⟩ :=
        splitDot_two p.1.data (h p (List.mem_cons_self p rest) hd)
      rw [hd]
      simp only [if_true]
      rw [hab]
      have := hstep _ (by unfold stepTemp; rw [hd]; simp only [if_true]; rw [hab])
      unfold stepTemp at this
      rw [hd] at this
      simp only [if_true] at this
      rw [hab] at this
      exact this
    · have hd' : strContains p.1 "desc" = false := Bool.of_not_eq_true hd
      rw [hd']
      simp only [Bool.false_eq_true, if_false]
      exact buildTempGo_isSome doc rest temp
        (fun q hq => h q (List.mem_cons_of_mem p hq))

/-- Claim C10: identifier extraction takes the second dot-separated segment
of each key containing `"desc"`; for every document in which all such keys
contain at least one dot the indexing is in bounds and
`normal_json2_ftb_desc` is total, while a dotless key such as `"desc"`
makes the index out of range (the `none` outcome). -/
theorem normal_json2_ftb_desc_total_of_dotted (doc : List (String × String))
    (h : ∀ p ∈ doc, strContains p.1 "desc" = true → '.' ∈ p.1.data) :
    (normal_json2_ftb_desc doc).isSome = true
    ∧ normal_json2_ftb_desc [("desc", "x")] = none := by
  constructor
  · have hb := buildTempGo_isSome doc doc [] h
    unfold normal_json2_ftb_desc buildTemp
    cases hbt : buildTempGo doc doc [] with
    | none =>
      rw [hbt] at hb
      simp at hb
    | some temp => simp
  · decide

/-- Witness for claim C10 at a one-entry document whose only `"desc"` key
is dotted. -/
theorem normal_json2_ftb_desc_total_of_dotted_witness :
    (normal_json2_ftb_desc [("quest.1.desc", "D")]).isSome = true
    ∧ normal_json2_ftb_desc [("desc", "x")] = none :=
  normal_json2_ftb_desc_total_of_dotted [("quest.1.desc", "D")] (by decide)

/-- Claim C5: on the quest document with keys `quest.1.desc`,
`quest.1.quest_desc.0 = "A"` and `quest.1.quest_desc.1 = "B"`, aggregation
yields exactly one synthesized key `quest.1.quest_desc` bound to the
ordered array `["A", "B"]`; `quest.1.desc` is absent and the identifier
`1` occurs only once even though three raw keys reference it. -/
theorem normal_json2_ftb_desc_dedup_example :
    normal_json2_ftb_desc
        [("quest.1.desc", "D"), ("quest.1.quest_desc.0", "A"),
         ("quest.1.quest_desc.1", "B")]
      = some [("quest.1.quest_desc", QVal.arr ["A", "B"])] := by
  decide

/-- Claim C9: aggregation collects by substring containment of
`"<id>.quest_desc"`, so with identifiers `1` and `11` in one document the
array synthesized for `quest.1.quest_desc` also picks up the value of the
`quest.11.quest_desc` key (here `"C"`). -/
theorem normal_json2_ftb_desc_substring_collection :
    normal_json2_ftb_desc
        [("quest.1.desc", "D"), ("quest.1.quest_desc.0", "A"),
         ("quest.11.quest_desc.0", "C")]
      = some [("quest.1.quest_desc", QVal.arr ["A", "C"]),
              ("quest.11.quest_desc", QVal.arr ["C"])] := by
  decide

/-- A Python value as handled by `json_to_nbt`. `bool` is listed separately
even though Python's `bool` is a subclass of `int`; the subclass relation is
reflected in the definition of `json_to_nbt` below. `float` and `pynone`
carry no payload: only their kind matters to the builder. -/
inductive PyVal where
  | dict : List (String × PyVal) → PyVal
  | list : List PyVal → PyVal
  | str : String → PyVal
  | int : Int → PyVal
  | bool : Bool → PyVal
  | float : PyVal
  | pynone : PyVal

/-- The NBT tags produced by `json_to_nbt`, as free constructors:
`Compound`, `List[String]`, `String` and `Int` of `nbtlib`. -/
inductive NbtTag where
  | compound : List (String × NbtTag) → NbtTag
  | list : List NbtTag → NbtTag
  | string : String → NbtTag
  | int : Int → NbtTag

/-- The element cast of `nbtlib.tag.List[nbtlib.tag.String]`: constructing
the typed list calls `cast_item` on every element in order, which keeps a
`String` tag unchanged and raises `IncompatibleItemType` for every other
tag kind (`Compound`, `List`, `Int`). -/
def cast_string_items : List NbtTag → Except String (List NbtTag)
  | [] => .ok []
  | NbtTag.string s :: rest =>
    match cast_string_items rest with
    | .error e => .error e
    | .ok l => .ok (NbtTag.string s :: l)
  | _ :: _ => .error "IncompatibleItemType"

mutual

/-- `json_to_nbt`: the `isinstance` dispatch chain of the source, in order
`dict`, `list`, `str`, `int`. A Python `bool` satisfies `isinstance(_, int)`
(bool is an int subclass), so it is converted to an `Int` tag (`True` → 1,
`False` → 0) rather than raising; `float` and `None` reach the final branch
and raise `ValueError` (modelled as `Except.error`). The `list` branch
first evaluates the whole comprehension (converting every item in order and
propagating its errors) and only then builds `List[String]`, whose element
cast rejects any converted item that is not a `String` tag. -/
def json_to_nbt : PyVal → Except String NbtTag
  | .dict kvs =>
    match json_to_nbt_pairs kvs with
    | .ok l => .ok (.compound l)
    | .error e => .error e
  | .list xs =>
    match json_to_nbt_items xs with
    | .error e => .error e
    | .ok l =>
      match cast_string_items l with
      | .error e => .error e
      | .ok l2 => .ok (.list l2)
  | .str s => .ok (.string s)
  | .int n => .ok (.int n)
  | .bool b => .ok (.int (if b then 1 else 0))
  | .float => .error "Unsupported data type: float"
  | .pynone => .error "Unsupported data type: NoneType"

/-- The dict comprehension of the `dict` branch of `json_to_nbt`. -/
def json_to_nbt_pairs : List (String × PyVal) → Except String (List (String × NbtTag))
  | [] => .ok []
  | (k, v) :: rest =>
    match json_to_nbt v with
    | .error e => .error e
    | .ok t =>
      match json_to_nbt_pairs rest with
      | .error e => .error e
      | .ok l => .ok ((k, t) :: l)

/-- The list comprehension of the `list` branch of `json_to_nbt`: only the
per-item conversion, run to completion before the `List[String]` cast
(`cast_string_items`) sees the converted tags. -/
def json_to_nbt_items : List PyVal → Except String (List NbtTag)
  | [] => .ok []
  | v :: rest =>
    match json_to_nbt v with
    | .error e => .error e
    | .ok t =>
      match json_to_nbt_items rest with
      | .error e => .error e
      | .ok l => .ok (t :: l)

end

/-- `Except` success test (Python: the call returns without raising). -/
def exOk {ε α : Type} : Except ε α → Bool
  | .ok _ => true
  | .error _ => false

/-- The sequences accepted by the `list` branch: the comprehension must
convert every item and the `List[String]` cast must then accept every
converted tag, which happens exactly when every item is a string — only a
`str` input converts to a `String` tag; any other item either fails its own
conversion or reaches the cast as a non-`String` tag and raises
`IncompatibleItemType`. -/
def okItems : List PyVal → Bool
  | [] => true
  | PyVal.str _ :: rest => okItems rest
  | _ :: _ => false

mutual

/-- The values on which `json_to_nbt` succeeds: every scalar in the nesting
is a string, an integer or a boolean, every item of every sequence is a
string, and `float` and `None` appear nowhere. -/
def okVal : PyVal → Bool
  | .dict kvs => okPairs kvs
  | .list xs => okItems xs
  | .str _ => true
  | .int _ => true
  | .bool _ => true
  | .float => false
  | .pynone => false

def okPairs : List (String × PyVal) → Bool
  | [] => true
  | (_, v) :: rest => okVal v && okPairs rest

end

-- Unfolding equations of the mutual builder, usable as rewrite rules.
theorem json_to_nbt_str_eq (s : String) :
    json_to_nbt (PyVal.str s) = .ok (NbtTag.string s) := rfl

theorem json_to_nbt_int_eq (n : Int) :
    json_to_nbt (PyVal.int n) = .ok (NbtTag.int n) := rfl

theorem json_to_nbt_bool_eq (b : Bool) :
    json_to_nbt (PyVal.bool b) = .ok (NbtTag.int (if b then 1 else 0)) := rfl

theorem json_to_nbt_dict_eq (kvs : List (String × PyVal)) :
    json_to_nbt (PyVal.dict kvs) =
      match json_to_nbt_pairs kvs with
      | .ok l => .ok (NbtTag.compound l)
      | .error e => .error e := rfl

theorem json_to_nbt_list_eq (xs : List PyVal) :
    json_to_nbt (PyVal.list xs) =
      match json_to_nbt_items xs with
      | .error e => .error e
      | .ok l =>
        match cast_string_items l with
        | .error e => .error e
        | .ok l2 => .ok (NbtTag.list l2) := rfl

theorem json_to_nbt_items_cons_eq (v : PyVal) (rest : List PyVal) :
    json_to_nbt_items (v :: rest) =
      match json_to_nbt v with
      | .error e => .error e
      | .ok t =>
        match json_to_nbt_items rest with
        | .error e => .error e
        | .ok l => .ok (t :: l) := rfl

/-- The `String` tags an all-string item list converts to. -/
def strTags : List PyVal → List NbtTag
  | [] => []
  | PyVal.str s :: rest => NbtTag.string s :: strTags rest
  | _ :: rest => strTags rest

-- On an all-string item list the comprehension succeeds and the
-- `List[String]` cast accepts every converted tag.
theorem json_to_nbt_items_of_okItems :
    ∀ xs : List PyVal, okItems xs = true →
      json_to_nbt_items xs = .ok (strTags xs)
      ∧ cast_string_items (strTags xs) = .ok (strTags xs)
  | [], _ => ⟨rfl, rfl⟩
  | x :: rest, h => by
    cases x with
    | str s =>
      have hrest : okItems rest = true := by simpa [okItems] using h
      obtain ⟨h1, h2⟩ := json_to_nbt_items_of_okItems rest hrest
      constructor
      · simp only [json_to_nbt_items_cons_eq, json_to_nbt_str_eq, h1, strTags]
      · simp only [strTags, cast_string_items, h2]
    | dict kvs => simp [okItems] at h
    | list ys => simp [okItems] at h
    | int n => simp [okItems] at h
    | bool b => simp [okItems] at h
    | float => simp [okItems] at h
    | pynone => simp [okItems] at h

-- On an item list that is not all strings, either the comprehension
-- raises (a float or None inside) or the cast rejects a non-String tag.
theorem json_to_nbt_items_cast_fail :
    ∀ xs : List PyVal, okItems xs = false →
      (∃ e, json_to_nbt_items xs = .error e)
      ∨ (∃ l, json_to_nbt_items xs = .ok l ∧
          ∃ e, cast_string_items l = .error e)
  | [], h => by simp [okItems] at h
  | x :: rest, h => by
    cases x with
    | str s =>
      have hrest : okItems rest = false := by simpa [okItems] using h
      rcases json_to_nbt_items_cast_fail rest hrest with ⟨e, he⟩ | ⟨l, hl, e, he⟩
      · left
        exact ⟨e, by
          simp only [json_to_nbt_items_cons_eq, json_to_nbt_str_eq, he]⟩
      · right
        refine ⟨NbtTag.string s :: l, ?_, e, ?_⟩
        · simp only [json_to_nbt_items_cons_eq, json_to_nbt_str_eq, hl]
        · simp only [cast_string_items, he]
    | dict kvs =>
      cases hp : json_to_nbt_pairs kvs with
      | error e =>
        left
        exact ⟨e, by
          simp only [json_to_nbt_items_cons_eq, json_to_nbt_dict_eq, hp]⟩
      | ok l0 =>
        cases hr : json_to_nbt_items rest with
        | error e =>
          left
          exact ⟨e, by
            simp only [json_to_nbt_items_cons_eq, json_to_nbt_dict_eq, hp, hr]⟩
        | ok l =>
          right
          refine ⟨NbtTag.compound l0 :: l, ?_, "IncompatibleItemType", rfl⟩
          simp only [json_to_nbt_items_cons_eq, json_to_nbt_dict_eq, hp, hr]
    | list ys =>
      cases hy : json_to_nbt_items ys with
      | error e =>
        left
        exact ⟨e, by
          simp only [json_to_nbt_items_cons_eq, json_to_nbt_list_eq, hy]⟩
      | ok ly =>
        cases hc : cast_string_items ly with
        | error e =>
          left
          exact ⟨e, by
            simp only [json_to_nbt_items_cons_eq, json_to_nbt_list_eq, hy, hc]⟩
        | ok l2 =>
          cases hr : json_to_nbt_items rest with
          | error e =>
            left
            exact ⟨e, by
              simp only [json_to_nbt_items_cons_eq, json_to_nbt_list_eq,
                hy, hc, hr]⟩
          | ok l =>
            right
            refine ⟨NbtTag.list l2 :: l, ?_, "IncompatibleItemType", rfl⟩
            simp only [json_to_nbt_items_cons_eq, json_to_nbt_list_eq,
              hy, hc, hr]
    | int n =>
      cases hr : json_to_nbt_items rest with
      | error e =>
        left
        exact ⟨e, by
          simp only [json_to_nbt_items_cons_eq, json_to_nbt_int_eq, hr]⟩
      | ok l =>
        right
        refine ⟨NbtTag.int n :: l, ?_, "IncompatibleItemType", rfl⟩
        simp only [json_to_nbt_items_cons_eq, json_to_nbt_int_eq, hr]
    | bool b =>
      cases hr : json_to_nbt_items rest with
      | error e =>
        left
        exact ⟨e, by
          simp only [json_to_nbt_items_cons_eq, json_to_nbt_bool_eq, hr]⟩
      | ok l =>
        right
        refine ⟨NbtTag.int (if b then 1 else 0) :: l, ?_,
          "IncompatibleItemType", ?_⟩
        · simp only [json_to_nbt_items_cons_eq, json_to_nbt_bool_eq, hr]
        · cases b <;> rfl
    | float =>
      left
      exact ⟨"Unsupported data type: float", by
        simp only [json_to_nbt_items_cons_eq]; rfl⟩
    | pynone =>
      left
      exact ⟨"Unsupported data type: NoneType", by
        simp only [json_to_nbt_items_cons_eq]; rfl⟩

mutual

theorem json_to_nbt_ok_spec : ∀ v : PyVal, exOk (json_to_nbt v) = okVal v
  | .dict kvs => by
    have h := json_to_nbt_pairs_ok_spec kvs
    unfold json_to_nbt okVal
    cases hj : json_to_nbt_pairs kvs with
    | ok l => rw [hj] at h; simp [exOk] at h ⊢; exact h
    | error e => rw [hj] at h; simp [exOk] at h ⊢; exact h
  | .list xs => by
    have hv : okVal (PyVal.list xs) = okItems xs := rfl
    rw [hv]
    cases hok : okItems xs with
    | true =>
      obtain ⟨h1, h2⟩ := json_to_nbt_items_of_okItems xs hok
      simp only [json_to_nbt_list_eq, h1, h2, exOk]
    | false =>
      rcases json_to_nbt_items_cast_fail xs hok with ⟨e, he⟩ | ⟨l, hl, e, he⟩
      · simp only [json_to_nbt_list_eq, he, exOk]
      · simp only [json_to_nbt_list_eq, hl, he, exOk]
  | .str s => rfl
  | .int n => rfl
  | .bool b => rfl
  | .float => rfl
  | .pynone => rfl

theorem json_to_nbt_pairs_ok_spec :
    ∀ kvs : List (String × PyVal), exOk (json_to_nbt_pairs kvs) = okPairs kvs
  | [] => rfl
  | (k, v) :: rest => by
    have hv := json_to_nbt_ok_spec v
    have hr := json_to_nbt_pairs_ok_spec rest
    unfold json_to_nbt_pairs okPairs
    cases hjv : json_to_nbt v with
    | error e =>
      rw [hjv] at hv
      have hv' : okVal v = false := by simpa [exOk] using hv.symm
      simp [exOk, hv']
    | ok t =>
      rw [hjv] at hv
      have hv' : okVal v = true := by simpa [exOk] using hv.symm
      cases hjr : json_to_nbt_pairs rest with
      | error e =>
        rw [hjr] at hr
        have hr' : okPairs rest = false := by simpa [exOk] using hr.symm
        simp [exOk, hv', hr']
      | ok l =>
        rw [hjr] at hr
        have hr' : okPairs rest = true := by simpa [exOk] using hr.symm
        simp [exOk, hv', hr']

end

/-- Counterexample to claim C6 as stated: a boolean input does not make the
tree builder fail. Python's `bool` is a subclass of `int`, so `True`
satisfies the `isinstance(data, int)` branch and is converted to `Int(1)`
instead of reaching the `ValueError` branch. -/
theorem json_to_nbt_bool_no_error :
    json_to_nbt (PyVal.bool true) = Except.ok (NbtTag.int 1) := rfl

/-- Claim C6 (amended): the tree builder is total over mappings, strings
and integers, and over sequences all of whose items are strings; booleans
are accepted and converted to integer tags (Python's bool is an int
subtype); a floating-point or null scalar fails with the
`Unsupported data type` `ValueError`; and a sequence item that converts to
any non-`String` tag (integer, boolean, mapping or nested sequence) makes
the `List[String]` element cast fail with `IncompatibleItemType`. Success
holds exactly when every scalar of the nesting is a string, integer or
boolean and every sequence item is a string. -/
theorem json_to_nbt_totality :
    (∀ v : PyVal, exOk (json_to_nbt v) = okVal v)
    ∧ json_to_nbt PyVal.float = Except.error "Unsupported data type: float"
    ∧ json_to_nbt PyVal.pynone = Except.error "Unsupported data type: NoneType"
    ∧ json_to_nbt (PyVal.bool true) = Except.ok (NbtTag.int 1)
    ∧ json_to_nbt (PyVal.bool false) = Except.ok (NbtTag.int 0)
    ∧ json_to_nbt (PyVal.list [PyVal.int 1])
        = Except.error "IncompatibleItemType"
    ∧ json_to_nbt (PyVal.list [PyVal.str "x", PyVal.str "y"])
        = Except.ok (NbtTag.list [NbtTag.string "x", NbtTag.string "y"]) :=
  ⟨json_to_nbt_ok_spec, rfl, rfl, rfl, rfl, rfl, rfl⟩

/-- `' ' * indent` of `format_snbt`. -/
def spaces (n : Nat) : String := ⟨List.replicate n ' '⟩

mutual

/-- `format_snbt`: compounds render as `\x7b`, one `key:value` per line with
the key bare and no space after the colon, closing brace on its own indented
line; lists render the same way inside square brackets; every primitive
(String or Int tag) renders as its text wrapped in double quotes; the indent
grows by `INDENT_SIZE = 4` per nesting level. -/
def format_snbt : NbtTag → Nat → String
  | .compound kvs, indent =>
    "\x7b" ++ fmt_pairs kvs indent ++ "\n" ++ spaces indent ++ "\x7d"
  | .list xs, indent =>
    "[" ++ fmt_items xs indent ++ "\n" ++ spaces indent ++ "]"
  | .string s, _ => "\"" ++ s ++ "\""
  | .int n, _ => "\"" ++ toString n ++ "\""

/-- The compound entry lines of `format_snbt`. -/
def fmt_pairs : List (String × NbtTag) → Nat → String
  | [], _ => ""
  | (k, v) :: rest, indent =>
    "\n" ++ spaces (indent + 4) ++ k ++ ":" ++ format_snbt v (indent + 4)
      ++ fmt_pairs rest indent

/-- The list item lines of `format_snbt`. -/
def fmt_items : List NbtTag → Nat → String
  | [], _ => ""
  | v :: rest, indent =>
    "\n" ++ spaces (indent + 4) ++ format_snbt v (indent + 4)
      ++ fmt_items rest indent

end

/-- The mapping of property P8, `\x7b"a": 1, "b": ["x","y"]\x7d`. -/
def demoVal : PyVal :=
  PyVal.dict [("a", PyVal.int 1), ("b", PyVal.list [PyVal.str "x", PyVal.str "y"])]

/-- The tag tree `json_to_nbt` builds from `demoVal`. -/
def demoTree : NbtTag :=
  NbtTag.compound
    [("a", NbtTag.int 1), ("b", NbtTag.list [NbtTag.string "x", NbtTag.string "y"])]

/-- Counterexample to claim C7 as stated: rendering the built tree of
`demoVal` yields a string that nowhere contains `"a":"1"` — the compound
key is emitted bare, not double-quoted. -/
theorem format_snbt_key_not_quoted :
    json_to_nbt demoVal = Except.ok demoTree
    ∧ strContains (format_snbt demoTree 0) "\"a\":\"1\"" = false := by
  exact ⟨rfl, by decide⟩

/-- Claim C7 (amended): rendering the built tree of `demoVal` produces
exactly the text whose first entry line is `a:"1"` (key bare, value
double-quoted, colon with no following space), whose sequence block has
`"x"` and `"y"` quoted on their own lines, with indentation growing by 4
spaces per level; every scalar value is quoted, so the digit 1 appears only
inside quotes. -/
theorem format_snbt_demo_render :
    json_to_nbt demoVal = Except.ok demoTree
    ∧ format_snbt demoTree 0 =
        "\x7b\n    a:\"1\"\n    b:[\n        \"x\"\n        \"y\"\n    ]\n\x7d"
    ∧ strContains (format_snbt demoTree 0) "a:\"1\"" = true
    ∧ strContains (format_snbt demoTree 0) "\n        \"x\"" = true
    ∧ strContains (format_snbt demoTree 0) "\n        \"y\"" = true := by
  refine ⟨rfl, by decide, by decide, by decide, by decide⟩

/-- The CJK test of `process_translation`:
`re.search(r'[\u4e00-\u9fff]', value)` — is any character of the value in
the CJK Unified Ideographs range? -/
def hasCJK (s : String) : Bool :=
  s.data.any (fun c => decide (0x4e00 ≤ c.toNat ∧ c.toNat ≤ 0x9fff))

/-- The substitution `re.sub(' ', '\u00A0', value)` applies to each
character: an ASCII space becomes a non-breaking space. -/
def subSpace (c : Char) : Char := if c = ' ' then '\u00A0' else c

/-- Lines 154–156 of `process_translation`: only when the value contains a
CJK character, replace every ASCII space by a non-breaking space. -/
def cjk_space_fix (s : String) : String :=
  if hasCJK s then ⟨s.data.map subSpace⟩ else s

/-- Claim C8: a resolved value containing a CJK Unified Ideograph gets
every ASCII space replaced by a non-breaking space (so `"你好 世界"`
becomes `"你好\u00A0世界"`), and a value with no CJK character, such as
`"hello world"`, is left unchanged by this rule. -/
theorem cjk_space_fix_spec :
    (∀ s : String,
      (hasCJK s = true → (cjk_space_fix s).data = s.data.map subSpace)
      ∧ (hasCJK s = false → cjk_space_fix s = s))
    ∧ cjk_space_fix "你好 世界" = "你好\u00A0世界"
    ∧ cjk_space_fix "hello world" = "hello world" := by
  refine ⟨fun s => ⟨?_, ?_⟩, by decide, by decide⟩
  · intro h
    simp [cjk_space_fix, h]
  · intro h
    simp [cjk_space_fix, h]

/-- Witness for claim C8 at the CJK value `"你好 世界"` and the
CJK-free value `"hello world"`. -/
theorem cjk_space_fix_spec_witness :
    (cjk_space_fix "你好 世界").data = "你好 世界".data.map subSpace
    ∧ cjk_space_fix "hello world" = "hello world" :=
  ⟨(cjk_space_fix_spec.1 "你好 世界").1 (by decide),
   (cjk_space_fix_spec.1 "hello world").2 (by decide)⟩
